import Mathlib

/-!
Shallow embedding of the nbxflow flow/step execution-tracking core
(src/nbxflow/core/registry.py, src/nbxflow/core/step.py,
src/nbxflow/core/datasets.py) and of the exporter-side graph
derivation and name sanitization (src/nbxflow/exporters/airflow_exporter.py,
src/nbxflow/exporters/graphviz.py).

Python dictionaries holding opaque JSON payloads (facet values, contract
documents, tag values) are modelled by a type parameter J: the code under
study never inspects those payloads, it only stores and copies them.
Python Optional values are Option, in-place mutation is explicit state
passing, raising is Except, and the external clock now_iso_zulu() is an
explicit argument.
-/

namespace Nbxflow

/-- Model of one entry of TaskSpec.inputs / TaskSpec.outputs: a Python dict
describing a dataset.  The code reads it only through .get("namespace") and
.get("name") (registry.py derive_edges, the exporters) which return None when
the key is absent, hence the Option fields; the facets entry is an opaque
payload copied verbatim.  The field ns models the "namespace" key (a reserved
word in Lean) and nm the "name" key. -/
structure DatasetDict (J : Type) where
  ns : Option String
  nm : Option String
  facets : List (String × J) := []
deriving Repr, DecidableEq

/-- TaskSpec dataclass of src/nbxflow/core/registry.py (lines 6-19), with the
same fields and defaults. -/
structure TaskSpec (J : Type) where
  name : String
  component_type : String
  inputs : List (DatasetDict J) := []
  outputs : List (DatasetDict J) := []
  contracts : List J := []
  tags : List (String × J) := []
  started_at : Option String := none
  finished_at : Option String := none
  status : Option String := none
  run_id : Option String := none
  parent : Option String := none
deriving Repr, DecidableEq

/-- FlowRegistry dataclass of src/nbxflow/core/registry.py (lines 37-46),
with the same fields and defaults; task_stack models the private field
named underscore-task-stack there. -/
structure FlowRegistry (J : Type) where
  name : String
  run_id : String
  tasks : List (TaskSpec J) := []
  started_at : Option String := none
  finished_at : Option String := none
  status : String := "RUNNING"
  task_stack : List String := []
deriving Repr, DecidableEq

/-- The dataset-identity comparison of derive_edges (registry.py lines 89-90):
output.get("namespace") == input.get("namespace") and
output.get("name") == input.get("name").  Python None == None is True, which
the Option equality reproduces. -/
def dsMatch {J : Type} (o i : DatasetDict J) : Bool :=
  o.ns == i.ns && o.nm == i.nm

/-- The two inner loops of derive_edges (registry.py lines 87-91): for every
output of task a and every input of task b whose identities match, append the
pair of task names. -/
def pairEdges {J : Type} (a b : TaskSpec J) : List (String × String) :=
  a.outputs.flatMap fun o =>
    b.inputs.filterMap fun i =>
      if dsMatch o i then some (a.name, b.name) else none

/-- FlowRegistry.derive_edges (registry.py lines 76-93): the two enumerate
loops over positions i and j, skipping i >= j, collecting the matching pairs,
then list(set(edges)).  The Python set dedup has unspecified order; it is
modelled by List.dedup, which preserves exactly the membership. -/
def FlowRegistry.derive_edges {J : Type} (r : FlowRegistry J) : List (String × String) :=
  (((List.range r.tasks.length).flatMap fun i =>
    (List.range r.tasks.length).flatMap fun j =>
      if i ≥ j then []
      else match r.tasks[i]?, r.tasks[j]? with
        | some a, some b => pairEdges a b
        | _, _ => []) : List (String × String)).dedup

/-- The parallelizable_types set of get_parallelizable_tasks
(registry.py lines 98-101). -/
def parallelizable_types : List String :=
  ["Transformer", "Enricher", "Reconciliator", "QualityCheck", "Splitter"]

/-- FlowRegistry.get_parallelizable_tasks (registry.py lines 95-106): the dict
comprehension is modelled as the association list built in task order (Python
dict lookup semantics: the last binding of a key wins). -/
def FlowRegistry.get_parallelizable_tasks {J : Type} (r : FlowRegistry J) :
    List (String × Bool) :=
  r.tasks.map fun t => (t.name, parallelizable_types.contains t.component_type)

/-- Concrete dataset X (identity namespace "file", name "x") used by the
scenario registries below. -/
def exX : DatasetDict Unit := { ns := some "file", nm := some "x" }

/-- Concrete task A producing X. -/
def exTaskA : TaskSpec Unit :=
  { name := "A", component_type := "DataLoader", outputs := [exX] }

/-- Concrete task B consuming X. -/
def exTaskB : TaskSpec Unit :=
  { name := "B", component_type := "Exporter", inputs := [exX] }

/-- Registry recording A (producer) before B (consumer). -/
def exRegForward : FlowRegistry Unit :=
  { name := "p", run_id := "r", tasks := [exTaskA, exTaskB] }

/-- Registry recording B (consumer) before A (producer). -/
def exRegBackward : FlowRegistry Unit :=
  { name := "p", run_id := "r", tasks := [exTaskB, exTaskA] }

/-- Registry in which the same task name "A" appears at two list positions,
the earlier occurrence producing X and the later one consuming it. -/
def exRegDupName : FlowRegistry Unit :=
  { name := "p", run_id := "r",
    tasks := [{ name := "A", component_type := "DataLoader", outputs := [exX] },
              { name := "A", component_type := "Exporter", inputs := [exX] }] }

theorem mem_pairEdges {J : Type} {a b : TaskSpec J} {p : String × String} :
    p ∈ pairEdges a b ↔
      (∃ o ∈ a.outputs, ∃ i ∈ b.inputs, dsMatch o i = true) ∧ p = (a.name, b.name) := by
  simp only [pairEdges, List.mem_flatMap, List.mem_filterMap]
  constructor
  · rintro ⟨o, ho, i, hi, hif⟩
    by_cases h : dsMatch o i
    · simp only [h, if_true, Option.some.injEq] at hif
      exact ⟨⟨o, ho, i, hi, h⟩, hif.symm⟩
    · simp [h] at hif
  · rintro ⟨⟨o, ho, i, hi, h⟩, rfl⟩
    exact ⟨o, ho, i, hi, by simp [h]⟩

theorem mem_derive_edges {J : Type} (r : FlowRegistry J) (p : String × String) :
    p ∈ r.derive_edges ↔
      ∃ (i j : Nat), i < j ∧ ∃ (a b : TaskSpec J), r.tasks[i]? = some a ∧ r.tasks[j]? = some b ∧
        p ∈ pairEdges a b := by
  unfold FlowRegistry.derive_edges
  rw [List.mem_dedup]
  simp only [List.mem_flatMap, List.mem_range]
  constructor
  · rintro ⟨i, hi, j, hj, hp⟩
    split at hp
    · exact absurd hp (List.not_mem_nil p)
    case isFalse hij =>
      match hgi : r.tasks[i]?, hgj : r.tasks[j]? with
      | some a, some b =>
        rw [hgi, hgj] at hp
        exact ⟨i, j, Nat.lt_of_not_le hij, a, b, hgi, hgj, hp⟩
      | some a, none => rw [hgi, hgj] at hp; exact absurd hp (List.not_mem_nil p)
      | none, _ => rw [hgi] at hp; exact absurd hp (List.not_mem_nil p)
  · rintro ⟨i, j, hij, a, b, hgi, hgj, hp⟩
    have hj : j < r.tasks.length := (List.getElem?_eq_some.mp hgj).1
    refine ⟨i, Nat.lt_trans hij hj, j, hj, ?_⟩
    rw [if_neg (Nat.not_le.mpr hij), hgi, hgj]
    exact hp

/-- C1: derive_edges returns exactly the de-duplicated set of forward pairs
(task at position i, task at position j) with i < j whose output/input dataset
identities (namespace, name) match; in particular [A(out=X), B(in=X)] yields
the single edge (A, B) while the reversed recording order yields no edge. -/
theorem nbx_C1_derive_edges_forward_dedup :
    (∀ (J : Type) (r : FlowRegistry J) (p : String × String),
      p ∈ r.derive_edges ↔
        ∃ (i j : Nat), i < j ∧ ∃ (a b : TaskSpec J), r.tasks[i]? = some a ∧ r.tasks[j]? = some b ∧
          p = (a.name, b.name) ∧
          ∃ o ∈ a.outputs, ∃ inp ∈ b.inputs, o.ns = inp.ns ∧ o.nm = inp.nm)
    ∧ (∀ (J : Type) (r : FlowRegistry J), r.derive_edges.Nodup)
    ∧ exRegForward.derive_edges = [("A", "B")]
    ∧ exRegBackward.derive_edges = [] := by
  refine ⟨fun J r p => ?_, fun J r => List.nodup_dedup _, by decide, by decide⟩
  rw [mem_derive_edges]
  constructor
  · rintro ⟨i, j, hij, a, b, hgi, hgj, hp⟩
    rcases mem_pairEdges.mp hp with ⟨⟨o, ho, inp, hinp, hm⟩, rfl⟩
    simp only [dsMatch, Bool.and_eq_true, beq_iff_eq] at hm
    exact ⟨i, j, hij, a, b, hgi, hgj, rfl, o, ho, inp, hinp, hm.1, hm.2⟩
  · rintro ⟨i, j, hij, a, b, hgi, hgj, rfl, o, ho, inp, hinp, h1, h2⟩
    refine ⟨i, j, hij, a, b, hgi, hgj, mem_pairEdges.mpr ⟨⟨o, ho, inp, hinp, ?_⟩, rfl⟩⟩
    simp [dsMatch, h1, h2]

/-- C2 counterexample: in a registry where the name "A" occupies two list
positions, the earlier producing a dataset the later consumes, derive_edges
returns the self-named edge (A, A) — so the claim that derive_edges never
returns an edge whose producer name equals its consumer name is false. -/
theorem nbx_C2_counterexample :
    exRegDupName.derive_edges = [("A", "A")] := by decide

/-- C2 amended: a single task occurrence is never paired with itself (the
i >= j skip), so whenever the task names of a registry are pairwise distinct,
derive_edges contains no edge whose producer name equals its consumer name;
self-named edges can arise only when one name occupies several positions. -/
theorem nbx_C2_no_self_edges_when_names_distinct
    {J : Type} (r : FlowRegistry J) (h : (r.tasks.map TaskSpec.name).Nodup)
    (n : String) : (n, n) ∉ r.derive_edges := by
  intro hmem
  rcases (nbx_C1_derive_edges_forward_dedup.1 J r (n, n)).mp hmem with
    ⟨i, j, hij, a, b, hgi, hgj, heq, -⟩
  have hj : j < r.tasks.length := (List.getElem?_eq_some.mp hgj).1
  have hi : i < r.tasks.length := Nat.lt_trans hij hj
  have hmi : (r.tasks.map TaskSpec.name)[i]? = some a.name := by
    rw [List.getElem?_map, hgi]; rfl
  have hmj : (r.tasks.map TaskSpec.name)[j]? = some b.name := by
    rw [List.getElem?_map, hgj]; rfl
  have hnames : a.name = b.name := by
    have h1 : a.name = n := congrArg Prod.fst heq.symm
    have h2 : b.name = n := congrArg Prod.snd heq.symm
    rw [h1, h2]
  have : i = j := by
    apply List.getElem?_inj (by simpa using hi) h
    rw [hmi, hmj, hnames]
  exact Nat.ne_of_lt hij this

/-- C2 amended witness: the distinct-names hypothesis discharged on the
concrete forward registry, whose derived edges exclude ("A", "A"). -/
theorem nbx_C2_witness : ("A", "A") ∉ exRegForward.derive_edges :=
  nbx_C2_no_self_edges_when_names_distinct exRegForward (by decide) "A"

/-- Serialized form of a task dict as produced by TaskSpec.to_dict
(registry.py lines 21-35) and read back by FlowRegistry.from_dict
(lines 137-150).  A field is none when the key is absent; for the keys read
with .get and no default (started_at, finished_at, status, run_id, parent)
absence and a null value are indistinguishable to the reader and are both
modelled by none. -/
structure TaskDocument (J : Type) where
  name : Option String := none
  component_type : Option String := none
  inputs : Option (List (DatasetDict J)) := none
  outputs : Option (List (DatasetDict J)) := none
  contracts : Option (List J) := none
  tags : Option (List (String × J)) := none
  started_at : Option String := none
  finished_at : Option String := none
  status : Option String := none
  run_id : Option String := none
  parent : Option String := none
deriving Repr, DecidableEq

/-- Serialized form of the FlowSpec document as produced by
FlowRegistry.to_dict (registry.py lines 108-119) and read back by
FlowRegistry.from_dict (lines 126-153). -/
structure FlowDocument (J : Type) where
  flow : Option String := none
  run_id : Option String := none
  started_at : Option String := none
  finished_at : Option String := none
  status : Option String := none
  tasks : Option (List (TaskDocument J)) := none
  edges : Option (List (String × String)) := none
  parallelizable : Option (List (String × Bool)) := none
deriving Repr, DecidableEq

/-- Python subscript access data[k]: raises KeyError when the key is absent. -/
def keyErr {α : Type} (k : String) : Option α → Except String α
  | some v => Except.ok v
  | none => Except.error ("KeyError: " ++ k)

/-- TaskSpec.to_dict (registry.py lines 21-35): every key is written. -/
def TaskSpec.to_dict {J : Type} (t : TaskSpec J) : TaskDocument J :=
  { name := some t.name, component_type := some t.component_type,
    inputs := some t.inputs, outputs := some t.outputs,
    contracts := some t.contracts, tags := some t.tags,
    started_at := t.started_at, finished_at := t.finished_at,
    status := t.status, run_id := t.run_id, parent := t.parent }

/-- The loop body of FlowRegistry.from_dict (registry.py lines 137-150):
task_data subscripting for name and component_type (KeyError when absent),
.get with defaults for the remaining keys. -/
def taskFromDict {J : Type} (d : TaskDocument J) : Except String (TaskSpec J) := do
  let name ← keyErr "name" d.name
  let ct ← keyErr "component_type" d.component_type
  pure { name := name, component_type := ct,
         inputs := d.inputs.getD [], outputs := d.outputs.getD [],
         contracts := d.contracts.getD [], tags := d.tags.getD [],
         started_at := d.started_at, finished_at := d.finished_at,
         status := d.status, run_id := d.run_id, parent := d.parent }

/-- FlowRegistry.to_dict (registry.py lines 108-119): edges and
parallelizable are recomputed from the task list at serialization time. -/
def FlowRegistry.to_dict {J : Type} (r : FlowRegistry J) : FlowDocument J :=
  { flow := some r.name, run_id := some r.run_id,
    started_at := r.started_at, finished_at := r.finished_at,
    status := some r.status,
    tasks := some (r.tasks.map TaskSpec.to_dict),
    edges := some r.derive_edges,
    parallelizable := some r.get_parallelizable_tasks }

/-- FlowRegistry.from_dict (registry.py lines 126-153): data subscripting for
flow and run_id (KeyError when absent), .get defaults "COMPLETED" for status
and the empty list for tasks; the stored edges and parallelizable keys are
never read. -/
def FlowRegistry.from_dict {J : Type} (d : FlowDocument J) :
    Except String (FlowRegistry J) := do
  let name ← keyErr "flow" d.flow
  let rid ← keyErr "run_id" d.run_id
  let tasks ← (d.tasks.getD []).mapM taskFromDict
  pure { name := name, run_id := rid,
         started_at := d.started_at, finished_at := d.finished_at,
         status := d.status.getD "COMPLETED",
         tasks := tasks, task_stack := [] }

theorem taskFromDict_to_dict {J : Type} (t : TaskSpec J) :
    taskFromDict (TaskSpec.to_dict t) = Except.ok t := rfl

theorem mapM_taskFromDict_to_dict {J : Type} :
    ∀ l : List (TaskSpec J), (l.map TaskSpec.to_dict).mapM taskFromDict = Except.ok l := by
  intro l
  induction l with
  | nil => rfl
  | cons t ts ih =>
    rw [List.map_cons, List.mapM_cons, taskFromDict_to_dict, ih]
    rfl

theorem from_dict_to_dict {J : Type} (r : FlowRegistry J) :
    FlowRegistry.from_dict (FlowRegistry.to_dict r) = Except.ok
      { name := r.name, run_id := r.run_id,
        started_at := r.started_at, finished_at := r.finished_at,
        status := r.status, tasks := r.tasks, task_stack := [] } := by
  have h : ((r.tasks.map TaskSpec.to_dict).mapM taskFromDict) = Except.ok r.tasks :=
    mapM_taskFromDict_to_dict r.tasks
  show ((r.tasks.map TaskSpec.to_dict).mapM taskFromDict).bind
        (fun tasks => Except.ok
          ({ name := r.name, run_id := r.run_id,
             started_at := r.started_at, finished_at := r.finished_at,
             status := r.status, tasks := tasks, task_stack := [] } : FlowRegistry J)) = _
  rw [h]
  rfl

/-- C3: deserializing the serialized registry succeeds and reproduces every
TaskSpec field of every task, the edges and parallelizable recomputed from the
round-tripped tasks equal those of the original registry, and from_dict never
reads the persisted edges and parallelizable keys (they are derived, not
copied). -/
theorem nbx_C3_roundtrip :
    ∀ (J : Type) (r : FlowRegistry J),
      (∃ r2 : FlowRegistry J,
        FlowRegistry.from_dict (FlowRegistry.to_dict r) = Except.ok r2
        ∧ r2.tasks = r.tasks
        ∧ r2.derive_edges = r.derive_edges
        ∧ r2.get_parallelizable_tasks = r.get_parallelizable_tasks)
      ∧ (∀ (e : Option (List (String × String))) (p : Option (List (String × Bool))),
          FlowRegistry.from_dict
            { FlowRegistry.to_dict r with edges := e, parallelizable := p }
          = FlowRegistry.from_dict (FlowRegistry.to_dict r)) := by
  intro J r
  exact ⟨⟨{ name := r.name, run_id := r.run_id,
            started_at := r.started_at, finished_at := r.finished_at,
            status := r.status, tasks := r.tasks, task_stack := [] },
          from_dict_to_dict r, rfl, rfl, rfl⟩,
         fun e p => rfl⟩

/-- Concrete FlowSpec document carrying the required flow and run_id keys but
missing the status and tasks keys entirely. -/
def exDocMissingStatusTasks : FlowDocument Unit :=
  { flow := some "f", run_id := some "r" }

/-- C8 counterexample: a document missing the top-level status and tasks keys
does not fail at load; from_dict silently defaults status to "COMPLETED" and
tasks to the empty list, contradicting the claim that a missing required
top-level key among (flow, run_id, status, tasks) always raises. -/
theorem nbx_C8_counterexample :
    FlowRegistry.from_dict exDocMissingStatusTasks =
      Except.ok { name := "f", run_id := "r", started_at := none,
                  finished_at := none, status := "COMPLETED",
                  tasks := [], task_stack := [] } := rfl

/-- C8 amended: from_dict fails fast (KeyError) exactly for a missing flow or
run_id key; a missing status key is silently defaulted to "COMPLETED" and a
missing tasks key to the empty task list. -/
theorem nbx_C8_missing_toplevel_keys {J : Type} (d : FlowDocument J) :
    (d.flow = none →
      FlowRegistry.from_dict d = Except.error "KeyError: flow")
    ∧ (∀ nm : String, d.flow = some nm → d.run_id = none →
      FlowRegistry.from_dict d = Except.error "KeyError: run_id")
    ∧ (∀ nm rid : String, d.flow = some nm → d.run_id = some rid →
        d.tasks = none →
      FlowRegistry.from_dict d = Except.ok
        { name := nm, run_id := rid,
          started_at := d.started_at, finished_at := d.finished_at,
          status := d.status.getD "COMPLETED",
          tasks := [], task_stack := [] }) := by
  refine ⟨fun h => ?_, fun nm h1 h2 => ?_, fun nm rid h1 h2 h3 => ?_⟩
  · unfold FlowRegistry.from_dict
    rw [h]
    rfl
  · unfold FlowRegistry.from_dict
    rw [h1, h2]
    rfl
  · unfold FlowRegistry.from_dict
    rw [h1, h2, h3]
    rfl

/-- C8 amended witness: the three branches instantiated on concrete
documents: the empty document, a flow-only document, and the document missing
only status and tasks. -/
theorem nbx_C8_witness :
    FlowRegistry.from_dict ({} : FlowDocument Unit) = Except.error "KeyError: flow"
    ∧ FlowRegistry.from_dict ({ flow := some "f" } : FlowDocument Unit)
        = Except.error "KeyError: run_id"
    ∧ FlowRegistry.from_dict exDocMissingStatusTasks = Except.ok
        { name := "f", run_id := "r", started_at := none, finished_at := none,
          status := "COMPLETED", tasks := [], task_stack := [] } :=
  ⟨(nbx_C8_missing_toplevel_keys ({} : FlowDocument Unit)).1 rfl,
   (nbx_C8_missing_toplevel_keys ({ flow := some "f" } : FlowDocument Unit)).2.1 "f" rfl rfl,
   (nbx_C8_missing_toplevel_keys exDocMissingStatusTasks).2.2 "f" "r" rfl rfl rfl⟩

/-- Character class kept by the regex substitutions of the sanitizers:
ASCII alphanumerics and the underscore (the class a-zA-Z0-9_). -/
def keepChar (c : Char) : Bool :=
  c.isAlpha || c.isDigit || c = '_'

/-- One character of re.sub applied with pattern not-a-of-that-class and
replacement underscore: kept characters survive, all others become an
underscore. -/
def sanChar (c : Char) : Char :=
  if keepChar c then c else '_'

/-- One step of re.sub with pattern underscore-run and replacement a single
underscore: a run of underscores collapses to its final one. -/
def collapseUnd : List Char → List Char
  | [] => []
  | [c] => [c]
  | c :: d :: rest =>
    if c = '_' && d = '_' then collapseUnd (d :: rest)
    else c :: collapseUnd (d :: rest)

/-- Removal of trailing underscores (the right half of str.strip applied to
the underscore): recursively keep the list, dropping a final underscore
segment. -/
def dropTrail : List Char → List Char
  | [] => []
  | c :: t =>
    match dropTrail t with
    | [] => if c = '_' then [] else [c]
    | x :: xs => c :: x :: xs

/-- Python str.strip of the underscore character: remove leading and trailing
underscores. -/
def stripUnd (l : List Char) : List Char :=
  dropTrail (l.dropWhile fun c => c = '_')

/-- sanitize_task_name of src/nbxflow/exporters/airflow_exporter.py
(lines 97-109): lowercase, replace characters outside a-zA-Z0-9_ by
underscores, collapse underscore runs, strip leading/trailing underscores,
prefix with task and an underscore when the result starts with a digit, and
fall back to unknown_task for an empty result.  Char.toLower models the
ASCII action of str.lower; every non-ASCII character is replaced by an
underscore by the following substitution in both languages. -/
def sanitize_task_name (s : String) : String :=
  let cs := stripUnd (collapseUnd ((s.data.map Char.toLower).map sanChar))
  let cs2 := match cs with
    | [] => ([] : List Char)
    | c :: _ => if c.isDigit then "task_".data ++ cs else cs
  if cs2 = [] then "unknown_task" else String.mk cs2

/-- The sanitizer for Mermaid node ids of src/nbxflow/exporters/graphviz.py
(lines 220-229): replace, collapse and strip as above but with no lowering,
no digit prefix, and fallback node. -/
def _sanitize_mermaid_id (s : String) : String :=
  let cs := stripUnd (collapseUnd (s.data.map sanChar))
  if cs = [] then "node" else String.mk cs

/-- The sanitizer for Graphviz DOT node ids of src/nbxflow/exporters/graphviz.py
(lines 231-239): replace characters outside the class, prefix with n and an
underscore when the result starts with a digit, fallback node; no collapsing
and no stripping. -/
def _sanitize_dot_id (s : String) : String :=
  let cs := s.data.map sanChar
  let cs2 := match cs with
    | [] => ([] : List Char)
    | c :: _ => if c.isDigit then 'n' :: '_' :: cs else cs
  if cs2 = [] then "node" else String.mk cs2

/-- Composite per-character action of the first two stages of
sanitize_task_name. -/
def lowSan (c : Char) : Char :=
  sanChar (Char.toLower c)

/-- Adjacent-pair relation forbidding two consecutive underscores. -/
def undPair (a b : Char) : Prop :=
  ¬(a = '_' ∧ b = '_')

/-- A list with no two consecutive underscores (collapsed form). -/
def NoRun (l : List Char) : Prop :=
  l.Chain' undPair

/-- A non-empty string over a-zA-Z0-9_ that does not start with a digit: the
valid bare identifier shape the specification requires of sanitizer
outputs. -/
def isBareIdent (s : String) : Bool :=
  match s.data with
  | [] => false
  | c :: t => !c.isDigit && keepChar c && t.all keepChar

theorem keepChar_sanChar (c : Char) : keepChar (sanChar c) = true := by
  unfold sanChar
  by_cases h : keepChar c = true
  · rw [if_pos h]; exact h
  · rw [if_neg h]; decide

theorem sanChar_of_keep {c : Char} (h : keepChar c = true) : sanChar c = c :=
  if_pos h

theorem sanChar_idem (c : Char) : sanChar (sanChar c) = sanChar c :=
  sanChar_of_keep (keepChar_sanChar c)

theorem toNat_ofNat_valid {n : Nat} (h : n.isValidChar) :
    (Char.ofNat n).toNat = n := by
  unfold Char.ofNat
  rw [dif_pos h]
  rfl

theorem toLower_toLower (c : Char) :
    Char.toLower (Char.toLower c) = Char.toLower c := by
  unfold Char.toLower
  by_cases h : c.toNat ≥ 65 ∧ c.toNat ≤ 90
  · rw [if_pos h]
    have hv : (c.toNat + 32).isValidChar := Or.inl (by omega)
    have ht : (Char.ofNat (c.toNat + 32)).toNat = c.toNat + 32 := toNat_ofNat_valid hv
    rw [ht, if_neg (by omega)]
  · rw [if_neg h, if_neg h]

theorem lowSan_idem (c : Char) : lowSan (lowSan c) = lowSan c := by
  unfold lowSan
  by_cases hk : keepChar (Char.toLower c) = true
  · rw [sanChar_of_keep hk, toLower_toLower, sanChar_of_keep hk]
  · have h2 : sanChar (Char.toLower c) = '_' := if_neg hk
    rw [h2]
    decide

theorem keepChar_lowSan (c : Char) : keepChar (lowSan c) = true :=
  keepChar_sanChar (Char.toLower c)

theorem map_fix {f : Char → Char} :
    ∀ {l : List Char}, (∀ c ∈ l, f c = c) → l.map f = l
  | [], _ => rfl
  | c :: t, h => by
    rw [List.map_cons, h c (List.mem_cons_self c t),
        map_fix fun x hx => h x (List.mem_cons_of_mem c hx)]

theorem mem_collapseUnd : ∀ {l : List Char} {c : Char}, c ∈ collapseUnd l → c ∈ l := by
  intro l
  induction l with
  | nil => intro c h; exact absurd h (List.not_mem_nil c)
  | cons a t ih =>
    intro c h
    match t with
    | [] => exact h
    | d :: rest =>
      rw [collapseUnd] at h
      split at h
      · exact List.mem_cons_of_mem a (ih h)
      · rcases List.mem_cons.mp h with rfl | h2
        · exact List.mem_cons_self c _
        · exact List.mem_cons_of_mem a (ih h2)

theorem collapseUnd_cons_head :
    ∀ (t : List Char) (d : Char), ∃ h r, collapseUnd (d :: t) = h :: r ∧
      (h = d ∨ (d = '_' ∧ h = '_')) := by
  intro t
  induction t with
  | nil => exact fun d => ⟨d, [], rfl, Or.inl rfl⟩
  | cons e r2 ih =>
    intro d
    rw [collapseUnd]
    by_cases hc : (d = '_' && e = '_') = true
    · rw [if_pos hc]
      simp only [Bool.and_eq_true, decide_eq_true_eq] at hc
      rcases ih e with ⟨h, r, heq, hd⟩
      refine ⟨h, r, heq, Or.inr ⟨hc.1, ?_⟩⟩
      rcases hd with rfl | ⟨-, rfl⟩
      · exact hc.2
      · rfl
    · rw [if_neg hc]
      exact ⟨d, _, rfl, Or.inl rfl⟩

theorem NoRun_collapseUnd : ∀ l : List Char, NoRun (collapseUnd l) := by
  intro l
  induction l with
  | nil => exact List.chain'_nil
  | cons a t ih =>
    match t with
    | [] => exact List.chain'_singleton a
    | d :: rest =>
      rw [collapseUnd]
      by_cases hc : (a = '_' && d = '_') = true
      · rw [if_pos hc]; exact ih
      · rw [if_neg hc]
        simp only [Bool.and_eq_true, decide_eq_true_eq, not_and] at hc
        rcases collapseUnd_cons_head rest d with ⟨h, r, heq, hd⟩
        rw [heq]
        rw [heq] at ih
        refine List.chain'_cons.mpr ⟨?_, ih⟩
        intro ⟨ha, hh⟩
        rcases hd with rfl | ⟨hd1, -⟩
        · exact hc ha hh
        · exact hc ha hd1

theorem collapseUnd_id : ∀ {l : List Char}, NoRun l → collapseUnd l = l := by
  intro l
  induction l with
  | nil => intro h; rfl
  | cons a t ih =>
    intro h
    match t with
    | [] => rfl
    | d :: rest =>
      rw [collapseUnd]
      have hp : undPair a d := (List.chain'_cons.mp h).1
      have hc : ¬((a = '_' && d = '_') = true) := by
        simp only [Bool.and_eq_true, decide_eq_true_eq]
        exact hp
      rw [if_neg hc, ih (List.chain'_cons.mp h).2]

theorem dropWhileUnd_head :
    ∀ {l : List Char} {c : Char},
      (l.dropWhile fun x => x = '_').head? = some c → c ≠ '_' := by
  intro l
  induction l with
  | nil => intro c h; exact absurd h (by simp)
  | cons a t ih =>
    intro c h
    rw [List.dropWhile_cons] at h
    split at h
    · exact ih h
    case isFalse hne =>
      rw [List.head?_cons, Option.some.injEq] at h
      subst h
      simpa using hne

theorem mem_dropWhileUnd {l : List Char} {c : Char}
    (h : c ∈ l.dropWhile fun x => x = '_') : c ∈ l := by
  induction l with
  | nil => exact absurd h (by simp)
  | cons a t ih =>
    rw [List.dropWhile_cons] at h
    split at h
    · exact List.mem_cons_of_mem a (ih h)
    · exact h

theorem chain_dropWhileUnd {l : List Char} (h : NoRun l) :
    NoRun (l.dropWhile fun x => x = '_') := by
  induction l with
  | nil => exact h
  | cons a t ih =>
    rw [List.dropWhile_cons]
    split
    · exact ih ((List.chain'_cons'.mp h).2)
    · exact h

theorem dropWhileUnd_id {l : List Char} (h : l.head? ≠ some '_') :
    (l.dropWhile fun x => x = '_') = l := by
  match l with
  | [] => rfl
  | a :: t =>
    rw [List.head?_cons] at h
    have : a ≠ '_' := fun he => h (by rw [he])
    rw [List.dropWhile_cons, if_neg (by simpa using this)]

theorem mem_dropTrail : ∀ {l : List Char} {c : Char}, c ∈ dropTrail l → c ∈ l := by
  intro l
  induction l with
  | nil => intro c h; exact h
  | cons a t ih =>
    intro c h
    rw [dropTrail] at h
    split at h
    case h_1 heq =>
      split at h
      · exact absurd h (List.not_mem_nil c)
      · rcases List.mem_cons.mp h with rfl | h2
        · exact List.mem_cons_self c _
        · exact absurd h2 (List.not_mem_nil c)
    case h_2 x xs heq =>
      rcases List.mem_cons.mp h with rfl | h2
      · exact List.mem_cons_self c _
      · exact List.mem_cons_of_mem a (ih (heq ▸ h2 : c ∈ dropTrail t))

theorem dropTrail_prefix : ∀ l : List Char, dropTrail l <+: l := by
  intro l
  induction l with
  | nil => exact List.prefix_refl []
  | cons a t ih =>
    rw [dropTrail]
    split
    case h_1 heq =>
      split
      · exact List.nil_prefix
      · exact ⟨t, rfl⟩
    case h_2 x xs heq =>
      rcases (heq ▸ ih : x :: xs <+: t) with ⟨s, hs⟩
      exact ⟨s, by rw [List.cons_append, hs]⟩

theorem chain_dropTrail {l : List Char} (h : NoRun l) : NoRun (dropTrail l) := by
  rcases dropTrail_prefix l with ⟨s, hs⟩
  rw [← hs] at h
  exact (List.chain'_append.mp h).1

theorem getLast?_dropTrail :
    ∀ {l : List Char} {c : Char}, (dropTrail l).getLast? = some c → c ≠ '_' := by
  intro l
  induction l with
  | nil => intro c h; exact absurd h (by simp [dropTrail])
  | cons a t ih =>
    intro c h
    rw [dropTrail] at h
    split at h
    case h_1 heq =>
      split at h
      · exact absurd h (by simp)
      case isFalse hne =>
        rw [List.getLast?_singleton, Option.some.injEq] at h
        subst h
        simpa using hne
    case h_2 x xs heq =>
      rw [List.getLast?_cons_cons] at h
      exact ih (heq ▸ h : (dropTrail t).getLast? = some c)

theorem dropTrail_head (a : Char) (t : List Char) :
    (dropTrail (a :: t)).head? = none ∨ (dropTrail (a :: t)).head? = some a := by
  rw [dropTrail]
  split
  · split
    · exact Or.inl rfl
    · exact Or.inr rfl
  · exact Or.inr rfl

theorem dropTrail_id : ∀ {l : List Char}, l.getLast? ≠ some '_' → dropTrail l = l := by
  intro l
  induction l with
  | nil => intro h; rfl
  | cons a t ih =>
    intro h
    match t with
    | [] =>
      rw [List.getLast?_singleton] at h
      have : a ≠ '_' := fun he => h (by rw [he])
      rw [dropTrail]
      simp [dropTrail, this]
    | b :: t2 =>
      rw [List.getLast?_cons_cons] at h
      have ht : dropTrail (b :: t2) = b :: t2 := ih h
      rw [dropTrail, ht]

theorem mem_stripUnd {l : List Char} {c : Char} (h : c ∈ stripUnd l) : c ∈ l :=
  mem_dropWhileUnd (mem_dropTrail h)

theorem chain_stripUnd {l : List Char} (h : NoRun l) : NoRun (stripUnd l) :=
  chain_dropTrail (chain_dropWhileUnd h)

theorem stripUnd_head {l : List Char} {c : Char}
    (h : (stripUnd l).head? = some c) : c ≠ '_' := by
  unfold stripUnd at h
  match hm : l.dropWhile fun x => x = '_' with
  | [] => rw [hm] at h; exact absurd h (by simp [dropTrail])
  | a :: t =>
    rw [hm] at h
    rcases dropTrail_head a t with h2 | h2
    · rw [h2] at h; exact absurd h (by simp)
    · rw [h2, Option.some.injEq] at h
      subst h
      exact dropWhileUnd_head (by rw [hm, List.head?_cons])

theorem stripUnd_last {l : List Char} {c : Char}
    (h : (stripUnd l).getLast? = some c) : c ≠ '_' :=
  getLast?_dropTrail h

theorem stripUnd_id {l : List Char} (hh : l.head? ≠ some '_')
    (hl : l.getLast? ≠ some '_') : stripUnd l = l := by
  unfold stripUnd
  rw [dropWhileUnd_id hh, dropTrail_id hl]

theorem stripUnd_head_ne (l : List Char) : (stripUnd l).head? ≠ some '_' :=
  fun h => stripUnd_head h rfl

theorem stripUnd_last_ne (l : List Char) : (stripUnd l).getLast? ≠ some '_' :=
  fun h => stripUnd_last h rfl

theorem fix_pipeline_task {l : List Char} (hf : ∀ c ∈ l, lowSan c = c)
    (hnr : NoRun l) (hh : l.head? ≠ some '_') (hl2 : l.getLast? ≠ some '_') :
    stripUnd (collapseUnd ((l.map Char.toLower).map sanChar)) = l := by
  rw [List.map_map]
  rw [show l.map (sanChar ∘ Char.toLower) = l from map_fix hf]
  rw [collapseUnd_id hnr, stripUnd_id hh hl2]

theorem fix_pipeline_san {l : List Char} (hf : ∀ c ∈ l, sanChar c = c)
    (hnr : NoRun l) (hh : l.head? ≠ some '_') (hl2 : l.getLast? ≠ some '_') :
    stripUnd (collapseUnd (l.map sanChar)) = l := by
  rw [map_fix hf, collapseUnd_id hnr, stripUnd_id hh hl2]

/-- Normal form of a non-fallback sanitize_task_name result. -/
def TaskOut (l : List Char) : Prop :=
  l ≠ [] ∧ (∀ c ∈ l, lowSan c = c) ∧ NoRun l ∧ l.head? ≠ some '_'
    ∧ l.getLast? ≠ some '_' ∧ (∀ c, l.head? = some c → c.isDigit = false)

theorem sanitize_task_name_cases (s : String) :
    sanitize_task_name s = "unknown_task" ∨
    ∃ l, sanitize_task_name s = String.mk l ∧ TaskOut l := by
  have hmfix : ∀ c ∈ (s.data.map Char.toLower).map sanChar, lowSan c = c := by
    intro c hc
    rw [List.map_map] at hc
    rcases List.mem_map.mp hc with ⟨a, -, rfl⟩
    exact lowSan_idem a
  have hfix : ∀ c ∈ stripUnd (collapseUnd ((s.data.map Char.toLower).map sanChar)),
      lowSan c = c :=
    fun c hc => hmfix c (mem_collapseUnd (mem_stripUnd hc))
  have hnr : NoRun (stripUnd (collapseUnd ((s.data.map Char.toLower).map sanChar))) :=
    chain_stripUnd (NoRun_collapseUnd _)
  have hh := stripUnd_head_ne (collapseUnd ((s.data.map Char.toLower).map sanChar))
  have hl2 := stripUnd_last_ne (collapseUnd ((s.data.map Char.toLower).map sanChar))
  rcases hcase : stripUnd (collapseUnd ((s.data.map Char.toLower).map sanChar))
    with - | ⟨c, t⟩
  · left
    simp only [sanitize_task_name, hcase]
    exact if_pos trivial
  · rw [hcase] at hfix hnr hh hl2
    right
    by_cases hd : c.isDigit = true
    · have hcne : c ≠ '_' := by
        intro he
        rw [he] at hd
        exact absurd hd (by decide)
      refine ⟨'t' :: 'a' :: 's' :: 'k' :: '_' :: c :: t, ?_, ?_, ?_, ?_, ?_, ?_, ?_⟩
      · simp only [sanitize_task_name, hcase, hd]
        rfl
      · simp
      · intro x hx
        simp only [List.mem_cons] at hx
        rcases hx with rfl | rfl | rfl | rfl | rfl | hx
        · decide
        · decide
        · decide
        · decide
        · decide
        · exact hfix x (List.mem_cons.mpr hx)
      · refine List.chain'_cons.mpr ⟨fun h => absurd h.1 (by decide), ?_⟩
        refine List.chain'_cons.mpr ⟨fun h => absurd h.1 (by decide), ?_⟩
        refine List.chain'_cons.mpr ⟨fun h => absurd h.1 (by decide), ?_⟩
        refine List.chain'_cons.mpr ⟨fun h => absurd h.1 (by decide), ?_⟩
        refine List.chain'_cons.mpr ⟨?_, hnr⟩
        exact fun h => hcne h.2
      · simp
      · rw [show ('t' :: 'a' :: 's' :: 'k' :: '_' :: c :: t)
            = ['t', 'a', 's', 'k', '_'] ++ (c :: t) from rfl, List.getLast?_append]
        rcases hg : (c :: t).getLast? with - | y
        · exact absurd hg (by simp)
        · rw [hg] at hl2
          exact hl2
      · intro x hx
        rw [List.head?_cons, Option.some.injEq] at hx
        subst hx
        decide
    · refine ⟨c :: t, ?_, by simp, hfix, hnr, hh, hl2, ?_⟩
      · simp only [sanitize_task_name, hcase, hd]
        rfl
      · intro x hx
        rw [List.head?_cons, Option.some.injEq] at hx
        subst hx
        exact Bool.not_eq_true _ ▸ hd

theorem sanitize_fix_of_TaskOut {l : List Char} (h : TaskOut l) :
    sanitize_task_name (String.mk l) = String.mk l := by
  obtain ⟨hne, hfix, hnr, hh, hl2, hdig⟩ := h
  have hcs : stripUnd (collapseUnd (((String.mk l).data.map Char.toLower).map sanChar)) = l :=
    fix_pipeline_task hfix hnr hh hl2
  obtain ⟨c, t, rfl⟩ := List.exists_cons_of_ne_nil hne
  simp only [sanitize_task_name, hcs, hdig c rfl]
  rfl

theorem mermaid_cases (s : String) :
    _sanitize_mermaid_id s = "node" ∨
    ∃ l, _sanitize_mermaid_id s = String.mk l ∧ l ≠ []
      ∧ (∀ c ∈ l, sanChar c = c) ∧ NoRun l
      ∧ l.head? ≠ some '_' ∧ l.getLast? ≠ some '_' := by
  have hmfix : ∀ c ∈ s.data.map sanChar, sanChar c = c := by
    intro c hc
    rcases List.mem_map.mp hc with ⟨a, -, rfl⟩
    exact sanChar_idem a
  have hfix : ∀ c ∈ stripUnd (collapseUnd (s.data.map sanChar)), sanChar c = c :=
    fun c hc => hmfix c (mem_collapseUnd (mem_stripUnd hc))
  have hnr : NoRun (stripUnd (collapseUnd (s.data.map sanChar))) :=
    chain_stripUnd (NoRun_collapseUnd _)
  have hh := stripUnd_head_ne (collapseUnd (s.data.map sanChar))
  have hl2 := stripUnd_last_ne (collapseUnd (s.data.map sanChar))
  rcases hcase : stripUnd (collapseUnd (s.data.map sanChar)) with - | ⟨c, t⟩
  · left
    simp only [_sanitize_mermaid_id, hcase]
    exact if_pos trivial
  · rw [hcase] at hfix hnr hh hl2
    right
    refine ⟨c :: t, ?_, by simp, hfix, hnr, hh, hl2⟩
    simp only [_sanitize_mermaid_id, hcase]
    rfl

theorem mermaid_fix {l : List Char} (hne : l ≠ []) (hf : ∀ c ∈ l, sanChar c = c)
    (hnr : NoRun l) (hh : l.head? ≠ some '_') (hl2 : l.getLast? ≠ some '_') :
    _sanitize_mermaid_id (String.mk l) = String.mk l := by
  have hcs : stripUnd (collapseUnd ((String.mk l).data.map sanChar)) = l :=
    fix_pipeline_san hf hnr hh hl2
  obtain ⟨c, t, rfl⟩ := List.exists_cons_of_ne_nil hne
  simp only [_sanitize_mermaid_id, hcs]
  rfl

theorem dot_cases (s : String) :
    _sanitize_dot_id s = "node" ∨
    ∃ l, _sanitize_dot_id s = String.mk l ∧ l ≠ []
      ∧ (∀ c ∈ l, sanChar c = c)
      ∧ (∀ c, l.head? = some c → c.isDigit = false) := by
  have hmfix : ∀ c ∈ s.data.map sanChar, sanChar c = c := by
    intro c hc
    rcases List.mem_map.mp hc with ⟨a, -, rfl⟩
    exact sanChar_idem a
  rcases hcase : s.data.map sanChar with - | ⟨c, t⟩
  · left
    simp only [_sanitize_dot_id, hcase]
    exact if_pos trivial
  · rw [hcase] at hmfix
    right
    by_cases hd : c.isDigit = true
    · refine ⟨'n' :: '_' :: c :: t, ?_, by simp, ?_, ?_⟩
      · simp only [_sanitize_dot_id, hcase, hd]
        rfl
      · intro x hx
        simp only [List.mem_cons] at hx
        rcases hx with rfl | rfl | hx
        · decide
        · decide
        · exact hmfix x (List.mem_cons.mpr hx)
      · intro x hx
        rw [List.head?_cons, Option.some.injEq] at hx
        subst hx
        decide
    · refine ⟨c :: t, ?_, by simp, hmfix, ?_⟩
      · simp only [_sanitize_dot_id, hcase, hd]
        rfl
      · intro x hx
        rw [List.head?_cons, Option.some.injEq] at hx
        subst hx
        exact Bool.not_eq_true _ ▸ hd

theorem dot_fix {l : List Char} (hne : l ≠ []) (hf : ∀ c ∈ l, sanChar c = c)
    (hdig : ∀ c, l.head? = some c → c.isDigit = false) :
    _sanitize_dot_id (String.mk l) = String.mk l := by
  have hcs : (String.mk l).data.map sanChar = l := map_fix hf
  obtain ⟨c, t, rfl⟩ := List.exists_cons_of_ne_nil hne
  simp only [_sanitize_dot_id, hcs, hdig c rfl]
  rfl

/-- C9 counterexample: the Mermaid sanitizer applies no digit prefix, so its
output on "1a" is "1a", which starts with a digit and is not a valid bare
identifier; the DOT sanitizer neither collapses underscore runs (output
"a__b") nor strips leading/trailing underscores (output "_x_"), so the claim
that every sanitizer output is stripped, collapsed and digit-prefixed is
false. -/
theorem nbx_C9_counterexample :
    _sanitize_mermaid_id "1a" = "1a" ∧ isBareIdent "1a" = false
    ∧ _sanitize_dot_id "a  b" = "a__b" ∧ ¬NoRun ("a__b".data)
    ∧ _sanitize_dot_id "_x_" = "_x_" ∧ ("_x_".data.head? = some '_') := by
  refine ⟨rfl, rfl, rfl, ?_, rfl, rfl⟩
  intro h
  have := (List.chain'_cons.mp ((List.chain'_cons.mp h).2)).1
  exact this (by decide)

/-- C9 amended: all three sanitizers are total and idempotent, and their
outputs are always non-empty strings over the class a-zA-Z0-9_;
sanitize_task_name moreover always yields a valid bare identifier (first
character not a digit).  The Mermaid sanitizer applies no digit prefix and
the DOT sanitizer does not collapse underscore runs or strip underscores, so
only sanitize_task_name satisfies the full normalization described by the
specification. -/
theorem nbx_C9_sanitizers_idempotent_total :
    (∀ s, sanitize_task_name (sanitize_task_name s) = sanitize_task_name s)
    ∧ (∀ s, isBareIdent (sanitize_task_name s) = true)
    ∧ (∀ s, _sanitize_mermaid_id (_sanitize_mermaid_id s) = _sanitize_mermaid_id s)
    ∧ (∀ s, (_sanitize_mermaid_id s).data ≠ []
        ∧ (_sanitize_mermaid_id s).data.all keepChar = true)
    ∧ (∀ s, _sanitize_dot_id (_sanitize_dot_id s) = _sanitize_dot_id s)
    ∧ (∀ s, (_sanitize_dot_id s).data ≠ []
        ∧ (_sanitize_dot_id s).data.all keepChar = true
        ∧ ∀ c, (_sanitize_dot_id s).data.head? = some c → c.isDigit = false) := by
  refine ⟨?_, ?_, ?_, ?_, ?_, ?_⟩
  · intro s
    rcases sanitize_task_name_cases s with h | ⟨l, h, hout⟩
    · rw [h]; rfl
    · rw [h]; exact sanitize_fix_of_TaskOut hout
  · intro s
    rcases sanitize_task_name_cases s with h | ⟨l, h, hne, hfix, -, -, -, hdig⟩
    · rw [h]; rfl
    · rw [h]
      obtain ⟨c, t, rfl⟩ := List.exists_cons_of_ne_nil hne
      have hkeep : ∀ x ∈ c :: t, keepChar x = true := by
        intro x hx
        rw [← hfix x hx]
        exact keepChar_lowSan x
      simp only [isBareIdent]
      rw [hdig c rfl, hkeep c (List.mem_cons_self c t)]
      simp only [Bool.not_false, Bool.true_and]
      exact List.all_eq_true.mpr fun x hx => hkeep x (List.mem_cons_of_mem c hx)
  · intro s
    rcases mermaid_cases s with h | ⟨l, h, hne, hfix, hnr, hh, hl2⟩
    · rw [h]; rfl
    · rw [h]; exact mermaid_fix hne hfix hnr hh hl2
  · intro s
    rcases mermaid_cases s with h | ⟨l, h, hne, hfix, -, -, -⟩
    · rw [h]; exact ⟨by decide, by decide⟩
    · rw [h]
      refine ⟨hne, List.all_eq_true.mpr fun x hx => ?_⟩
      rw [← hfix x hx]
      exact keepChar_sanChar x
  · intro s
    rcases dot_cases s with h | ⟨l, h, hne, hfix, hdig⟩
    · rw [h]; rfl
    · rw [h]; exact dot_fix hne hfix hdig
  · intro s
    rcases dot_cases s with h | ⟨l, h, hne, hfix, hdig⟩
    · rw [h]
      refine ⟨by decide, by decide, ?_⟩
      intro c hc
      rw [show ("node").data.head? = some 'n' from rfl, Option.some.injEq] at hc
      subst hc
      decide
    · rw [h]
      refine ⟨hne, List.all_eq_true.mpr fun x hx => ?_, hdig⟩
      rw [← hfix x hx]
      exact keepChar_sanChar x

/-- The dataset key string of the exporters: .get of namespace then name with
empty-string defaults, joined by a colon (airflow_exporter.py line 125,
graphviz.py line 255). -/
def dsKey {J : Type} (d : DatasetDict J) : String :=
  d.ns.getD "" ++ ":" ++ d.nm.getD ""

/-- Lookup in a Python dict built by repeated key assignment: the most recent
binding of the key wins. -/
def lookupLast (l : List (String × String)) (k : String) : Option String :=
  (l.reverse.find? fun kv => kv.1 == k).map Prod.snd

/-- The first loop of derive_task_dependencies (airflow_exporter.py lines
120-126): every task (raising KeyError when the name key is absent) registers
its sanitized name as the producer of each of its output keys; a later task
overwrites an earlier producer of the same key. -/
def airflowProducers {J : Type} (tasks : List (TaskDocument J)) :
    Except String (List (String × String)) :=
  tasks.foldlM (fun acc t => do
    let nm ← keyErr "name" t.name
    pure (acc ++ (t.outputs.getD []).map fun o => (dsKey o, sanitize_task_name nm))) []

/-- The body of the second loop of derive_task_dependencies
(airflow_exporter.py lines 129-136): each input key that has a producer other
than the task itself appends one dependency pair. -/
def airflowStep {J : Type} (producers : List (String × String))
    (acc : List (String × String)) (t : TaskDocument J) :
    Except String (List (String × String)) := do
  let nm ← keyErr "name" t.name
  pure (acc ++ (t.inputs.getD []).filterMap fun i =>
    match lookupLast producers (dsKey i) with
    | some up => if up ≠ sanitize_task_name nm then some (up, sanitize_task_name nm) else none
    | none => none)

/-- derive_task_dependencies (airflow_exporter.py lines 111-138). -/
def derive_task_dependencies {J : Type} (tasks : List (TaskDocument J)) :
    Except String (List (String × String)) := do
  let producers ← airflowProducers tasks
  tasks.foldlM (airflowStep producers) []

/-- The producers map of the visualizer edge derivation (graphviz.py lines
249-256): raw names with default unknown, every task in order. -/
def mermaidProducers {J : Type} (tasks : List (TaskDocument J)) :
    List (String × String) :=
  tasks.flatMap fun t =>
    (t.outputs.getD []).map fun o => (dsKey o, t.name.getD "unknown")

/-- The edge label of the visualizer (graphviz.py lines 266-269): the final
path component of the input name (the Python split on the slash, last
element, here computed as the suffix after the last slash, which is the same
string), truncated to 17 characters plus an ellipsis when longer than 20. -/
def mermaidLabel {J : Type} (i : DatasetDict J) : String :=
  let lastC := ((i.nm.getD "").data.reverse.takeWhile fun c => c ≠ '/').reverse
  if lastC.length > 20 then String.mk (lastC.take 17 ++ ['.', '.', '.'])
  else String.mk lastC

/-- The underscore-prefixed mermaid edge derivation of graphviz.py (lines
241-272), shared by the Mermaid and DOT outputs. -/
def _derive_mermaid_edges {J : Type} (tasks : List (TaskDocument J)) :
    List (String × String × String) :=
  tasks.flatMap fun t =>
    (t.inputs.getD []).filterMap fun i =>
      match lookupLast (mermaidProducers tasks) (dsKey i) with
      | some up =>
        if up ≠ t.name.getD "unknown"
        then some (up, t.name.getD "unknown", mermaidLabel i)
        else none
      | none => none

/-- C4 counterexample: on the registry recording consumer B before producer A,
the core derive_edges yields no edge, while both exporter derivations, run on
the serialized form of the same tasks, yield the backward edge from A to B:
the exporters do not re-derive the same forward-only graph as the core
algorithm. -/
theorem nbx_C4_counterexample :
    exRegBackward.derive_edges = []
    ∧ _derive_mermaid_edges (exRegBackward.tasks.map TaskSpec.to_dict)
        = [("A", "B", "x")]
    ∧ derive_task_dependencies (exRegBackward.tasks.map TaskSpec.to_dict)
        = Except.ok [("a", "b")] := by
  refine ⟨by decide, by decide, rfl⟩

theorem mem_mermaid_edges {J : Type} (tasks : List (TaskDocument J))
    (u v lbl : String) :
    (u, v, lbl) ∈ _derive_mermaid_edges tasks ↔
      ∃ t ∈ tasks, v = t.name.getD "unknown" ∧
        ∃ i ∈ t.inputs.getD [],
          lookupLast (mermaidProducers tasks) (dsKey i) = some u
          ∧ u ≠ v ∧ lbl = mermaidLabel i := by
  simp only [_derive_mermaid_edges, List.mem_flatMap, List.mem_filterMap]
  constructor
  · rintro ⟨t, ht, i, hi, hf⟩
    rcases hlk : lookupLast (mermaidProducers tasks) (dsKey i) with - | up
    · rw [hlk] at hf
      exact absurd hf (by simp)
    · rw [hlk] at hf
      dsimp only at hf
      by_cases hne : up ≠ t.name.getD "unknown"
      · rw [if_pos hne] at hf
        rcases Option.some.injEq _ _ ▸ hf with heq
        obtain ⟨rfl, rfl, rfl⟩ :
            up = u ∧ t.name.getD "unknown" = v ∧ mermaidLabel i = lbl := by
          refine ⟨congrArg Prod.fst heq, ?_, ?_⟩
          · exact congrArg (fun p => p.2.1) heq
          · exact congrArg (fun p => p.2.2) heq
        exact ⟨t, ht, rfl, i, hi, hlk, hne, rfl⟩
      · rw [if_neg hne] at hf
        exact absurd hf (by simp)
  · rintro ⟨t, ht, rfl, i, hi, hlk, hne, rfl⟩
    refine ⟨t, ht, i, hi, ?_⟩
    rw [hlk]
    dsimp only
    rw [if_pos hne]

theorem airflowStep_mem {J : Type} (pr acc : List (String × String))
    (t : TaskDocument J) {res : List (String × String)}
    (h : airflowStep pr acc t = Except.ok res) :
    ∀ e ∈ res, e ∈ acc ∨ e.1 ≠ e.2 := by
  rcases hn : t.name with - | nm
  · rw [airflowStep, hn] at h
    exact absurd h (by simp [keyErr])
  · rw [airflowStep, hn] at h
    have hres : res = acc ++ (t.inputs.getD []).filterMap fun i =>
        match lookupLast pr (dsKey i) with
        | some up =>
          if up ≠ sanitize_task_name nm then some (up, sanitize_task_name nm) else none
        | none => none := by
      have := h.symm
      simpa [keyErr] using this
    subst hres
    intro e he
    rcases List.mem_append.mp he with h1 | h2
    · exact Or.inl h1
    · right
      rcases List.mem_filterMap.mp h2 with ⟨i, -, hf⟩
      rcases hlk : lookupLast pr (dsKey i) with - | up
      · rw [hlk] at hf
        exact absurd hf (by simp)
      · rw [hlk] at hf
        dsimp only at hf
        by_cases hne : up ≠ sanitize_task_name nm
        · rw [if_pos hne] at hf
          have h1 : e.1 = up := by rw [← Option.some.injEq _ _ |>.mp hf]
          have h2 : e.2 = sanitize_task_name nm := by rw [← Option.some.injEq _ _ |>.mp hf]
          rw [h1, h2]
          exact hne
        · rw [if_neg hne] at hf
          exact absurd hf (by simp)

theorem airflow_fold_ne {J : Type} (pr : List (String × String)) :
    ∀ (tasks : List (TaskDocument J)) (acc deps : List (String × String)),
      List.foldlM (airflowStep pr) acc tasks = Except.ok deps →
      ∀ e ∈ deps, e ∈ acc ∨ e.1 ≠ e.2 := by
  intro tasks
  induction tasks with
  | nil =>
    intro acc deps h e he
    rw [List.foldlM_nil] at h
    cases h
    exact Or.inl he
  | cons t ts ih =>
    intro acc deps h e he
    rw [List.foldlM_cons] at h
    rcases hs : airflowStep pr acc t with f | acc2
    · rw [hs] at h
      exact Except.noConfusion h
    · rw [hs] at h
      rcases ih acc2 deps h e he with h1 | h2
      · exact airflowStep_mem pr acc t hs e h1
      · exact Or.inr h2

/-- C4 amended: each exporter independently re-derives a graph from the task
dicts, but by a last-producer-wins dataset map over all list positions, not by
the forward-only pair scan of the core algorithm: an edge of the visualizer
derivation is exactly a pair (producer of an input key under the map, consumer
task) with producer distinct from consumer, and every edge produced by the
Airflow exporter likewise relates two distinct sanitized names.  Self-edges
are excluded in all derivations, but the exporter graphs are neither
forward-only nor de-duplicated and thus need not coincide with
derive_edges. -/
theorem nbx_C4_exporters_last_producer_map :
    (∀ (J : Type) (tasks : List (TaskDocument J)) (u v lbl : String),
      (u, v, lbl) ∈ _derive_mermaid_edges tasks ↔
        ∃ t ∈ tasks, v = t.name.getD "unknown" ∧
          ∃ i ∈ t.inputs.getD [],
            lookupLast (mermaidProducers tasks) (dsKey i) = some u
            ∧ u ≠ v ∧ lbl = mermaidLabel i)
    ∧ (∀ (J : Type) (tasks : List (TaskDocument J))
        (e : String × String × String),
        e ∈ _derive_mermaid_edges tasks → e.1 ≠ e.2.1)
    ∧ (∀ (J : Type) (tasks : List (TaskDocument J))
        (deps : List (String × String)),
        derive_task_dependencies tasks = Except.ok deps →
        ∀ e ∈ deps, e.1 ≠ e.2) := by
  refine ⟨fun J tasks u v lbl => mem_mermaid_edges tasks u v lbl, ?_, ?_⟩
  · rintro J tasks ⟨u, v, lbl⟩ he
    rcases (mem_mermaid_edges tasks u v lbl).mp he with ⟨t, -, rfl, i, -, -, hne, -⟩
    exact hne
  · intro J tasks deps h e he
    rw [derive_task_dependencies] at h
    rcases hp : airflowProducers tasks with f | pr
    · rw [hp] at h
      exact Except.noConfusion h
    · rw [hp] at h
      rcases airflow_fold_ne pr tasks [] deps h e he with h1 | h2
      · exact absurd h1 (List.not_mem_nil e)
      · exact h2

/-- DatasetRef dataclass of src/nbxflow/core/datasets.py (lines 6-11); the
field ns models the namespace attribute and nm the name attribute. -/
structure DatasetRef (J : Type) where
  ns : String
  nm : String
  facets : List (String × J) := []
deriving Repr, DecidableEq

/-- DatasetRef.to_dict (datasets.py lines 13-19): all three keys written. -/
def DatasetRef.to_dict {J : Type} (d : DatasetRef J) : DatasetDict J :=
  { ns := some d.ns, nm := some d.nm, facets := d.facets }

/-- COMPONENT_TYPES of src/nbxflow/core/step.py (lines 29-33). -/
def COMPONENT_TYPES : List String :=
  ["DataLoader", "Transformer", "Reconciliator", "Enricher",
   "Exporter", "QualityCheck", "Splitter", "Merger",
   "Orchestrator", "Other"]

/-- The per-step state established by Step.__init__ (step.py lines 102-128):
identity, component type, tags, run id, and the local input/output/contract
lists appended to by mark_input, mark_output and add_contract. -/
structure StepState (J : Type) where
  name : String
  component_type : String
  tags : List (String × J) := []
  run_id : String
  inputs : List (DatasetRef J) := []
  outputs : List (DatasetRef J) := []
  contracts : List J := []
deriving Repr, DecidableEq

/-- Step.__init__ validation (step.py lines 102-128): raise ValueError when
component_type is neither in COMPONENT_TYPES nor the literal sentinel auto;
otherwise start with empty local I/O lists.  generate_run_id is an external
id source passed in explicitly. -/
def Step.init {J : Type} (name component_type : String)
    (tags : List (String × J)) (run_id : String) :
    Except String (StepState J) :=
  if COMPONENT_TYPES.contains component_type = false ∧ component_type ≠ "auto"
  then Except.error ("ValueError: invalid component_type " ++ component_type)
  else Except.ok { name := name, component_type := component_type,
                   tags := tags, run_id := run_id }

/-- Step.mark_input (step.py lines 306-309): append to the local inputs. -/
def StepState.mark_input {J : Type} (st : StepState J) (ds : DatasetRef J) : StepState J :=
  { st with inputs := st.inputs ++ [ds] }

/-- Step.mark_output (step.py lines 311-314): append to the local outputs. -/
def StepState.mark_output {J : Type} (st : StepState J) (ds : DatasetRef J) : StepState J :=
  { st with outputs := st.outputs ++ [ds] }

/-- Registry effect of Step.__enter__ (step.py lines 149-161): when an
ambient flow registry exists, append a fresh RUNNING TaskSpec whose parent is
the top of the active-step stack and push this step name; without an ambient
registry nothing is recorded.  The tracing span, the lineage START event and
the Prometheus counters are external collaborators that do not touch the
registry. -/
def Step.enterScope {J : Type} (st : StepState J)
    (reg : Option (FlowRegistry J)) (now : String) : Option (FlowRegistry J) :=
  match reg with
  | none => none
  | some r =>
    let task : TaskSpec J :=
      { name := st.name, component_type := st.component_type,
        tags := st.tags, started_at := some now,
        run_id := some st.run_id, status := some "RUNNING",
        parent := r.task_stack.getLast? }
    some { r with tasks := r.tasks ++ [task],
                  task_stack := r.task_stack ++ [st.name] }

/-- FlowRegistry.get_task (registry.py lines 52-58): scan the task list most
recent first for a name match and, when a run id is given, also a run id
match. -/
def FlowRegistry.get_task {J : Type} (r : FlowRegistry J) (name : String)
    (run_id : Option String) : Option (TaskSpec J) :=
  r.tasks.reverse.find? fun t =>
    t.name == name && (run_id.isNone || t.run_id == run_id)

/-- Replacement of the first element satisfying a predicate: the explicit
form of the in-place mutation of the task object that get_task returned. -/
def updateFirst {α : Type} : List α → (α → Bool) → (α → α) → List α
  | [], _, _ => []
  | x :: xs, p, f => if p x then f x :: xs else x :: updateFirst xs p f

/-- FlowRegistry.update_task_status (registry.py lines 60-74): find the most
recent task with this name and run id; when found set status and finished_at
(now is the external clock value) and overwrite inputs, outputs and contracts
when they are given; when no task matches, nothing changes. -/
def FlowRegistry.update_task_status {J : Type} (r : FlowRegistry J)
    (name run_id status now : String)
    (inputs outputs : Option (List (DatasetDict J)))
    (contracts : Option (List J)) : FlowRegistry J :=
  { r with tasks :=
      (updateFirst r.tasks.reverse
        (fun t => t.name == name && t.run_id == some run_id)
        (fun t =>
          { t with status := some status, finished_at := some now,
                   inputs := inputs.getD t.inputs,
                   outputs := outputs.getD t.outputs,
                   contracts := contracts.getD t.contracts })).reverse }

/-- Registry effect of Step.__exit__ (step.py lines 185-266): success is the
absence of a user exception; the owning registry task is finalized through
update_task_status with the terminal status, the clock value and the local
I/O and contract lists; the step name is popped when it is the top of the
stack; and the returned Bool is the __exit__ return value False, so the user
exception is never suppressed.  The emitter, Prometheus, tracing and logging
calls are external, catch their own failures, and do not touch the
registry. -/
def Step.exitScope {J : Type} (st : StepState J)
    (reg : Option (FlowRegistry J)) (success : Bool) (now : String) :
    Option (FlowRegistry J) × Bool :=
  match reg with
  | none => (none, false)
  | some r =>
    let status := if success then "SUCCESS" else "FAILED"
    let r2 := r.update_task_status st.name st.run_id status now
      (some (st.inputs.map DatasetRef.to_dict))
      (some (st.outputs.map DatasetRef.to_dict))
      (some st.contracts)
    let r3 := if r2.task_stack.getLast? = some st.name
              then { r2 with task_stack := r2.task_stack.dropLast }
              else r2
    (some r3, false)

theorem find?_updateFirst {α : Type} (p : α → Bool) (f : α → α)
    (hp : ∀ a, p a = true → p (f a) = true) :
    ∀ l : List α, (updateFirst l p f).find? p = (l.find? p).map f := by
  intro l
  induction l with
  | nil => rfl
  | cons x xs ih =>
    by_cases hx : p x = true
    · rw [updateFirst, if_pos hx, List.find?_cons_of_pos _ (hp x hx),
          List.find?_cons_of_pos _ hx]
      rfl
    · rw [updateFirst, if_neg hx, List.find?_cons_of_neg _ hx,
          List.find?_cons_of_neg _ hx, ih]

theorem get_task_update_task_status {J : Type} (r : FlowRegistry J)
    (name rid status now : String)
    (ins outs : Option (List (DatasetDict J))) (cts : Option (List J))
    {t : TaskSpec J} (h : r.get_task name (some rid) = some t) :
    (r.update_task_status name rid status now ins outs cts).get_task
      name (some rid)
    = some { t with status := some status, finished_at := some now,
                    inputs := ins.getD t.inputs,
                    outputs := outs.getD t.outputs,
                    contracts := cts.getD t.contracts } := by
  have h2 : r.tasks.reverse.find?
      (fun a : TaskSpec J => a.name == name && a.run_id == some rid) = some t := h
  have hfind := find?_updateFirst
    (fun a : TaskSpec J => a.name == name && a.run_id == some rid)
    (fun a : TaskSpec J =>
      { a with status := some status, finished_at := some now,
               inputs := ins.getD a.inputs,
               outputs := outs.getD a.outputs,
               contracts := cts.getD a.contracts })
    (fun a ha => ha) r.tasks.reverse
  rw [h2] at hfind
  show ((updateFirst r.tasks.reverse
      (fun a : TaskSpec J => a.name == name && a.run_id == some rid)
      (fun a : TaskSpec J =>
        { a with status := some status, finished_at := some now,
                 inputs := ins.getD a.inputs,
                 outputs := outs.getD a.outputs,
                 contracts := cts.getD a.contracts })).reverse.reverse.find?
      (fun a : TaskSpec J => a.name == name && a.run_id == some rid)) = _
  rw [List.reverse_reverse, hfind]
  rfl

/-- C5: when a step scope is exited with an exception (success false) and the
owning registry holds the task recorded for this step (matched by name and
run id, exactly as get_task matches it), the finalized registry task has
status FAILED and a non-null finished_at, and the __exit__ result is False:
the user exception is re-raised to the caller unchanged, never suppressed by
the finalization bookkeeping. -/
theorem nbx_C5_failed_step_finalized {J : Type} (st : StepState J)
    (r : FlowRegistry J) (now : String) {t : TaskSpec J}
    (h : r.get_task st.name (some st.run_id) = some t) :
    (Step.exitScope st (some r) false now).2 = false ∧
    ∃ r2, (Step.exitScope st (some r) false now).1 = some r2 ∧
      ∃ t2, r2.get_task st.name (some st.run_id) = some t2 ∧
        t2.status = some "FAILED" ∧ t2.finished_at = some now := by
  refine ⟨rfl, ?_⟩
  have hget2 := get_task_update_task_status r st.name st.run_id "FAILED" now
    (some (st.inputs.map DatasetRef.to_dict))
    (some (st.outputs.map DatasetRef.to_dict))
    (some st.contracts) h
  have hval : (Step.exitScope st (some r) false now).1
      = some (if (r.update_task_status st.name st.run_id "FAILED" now
            (some (st.inputs.map DatasetRef.to_dict))
            (some (st.outputs.map DatasetRef.to_dict))
            (some st.contracts)).task_stack.getLast? = some st.name
          then { r.update_task_status st.name st.run_id "FAILED" now
            (some (st.inputs.map DatasetRef.to_dict))
            (some (st.outputs.map DatasetRef.to_dict))
            (some st.contracts) with
              task_stack := (r.update_task_status st.name st.run_id "FAILED" now
                (some (st.inputs.map DatasetRef.to_dict))
                (some (st.outputs.map DatasetRef.to_dict))
                (some st.contracts)).task_stack.dropLast }
          else r.update_task_status st.name st.run_id "FAILED" now
            (some (st.inputs.map DatasetRef.to_dict))
            (some (st.outputs.map DatasetRef.to_dict))
            (some st.contracts)) := rfl
  by_cases hs : (r.update_task_status st.name st.run_id "FAILED" now
      (some (st.inputs.map DatasetRef.to_dict))
      (some (st.outputs.map DatasetRef.to_dict))
      (some st.contracts)).task_stack.getLast? = some st.name
  · rw [hval, if_pos hs]
    exact ⟨_, rfl, _, hget2, rfl, rfl⟩
  · rw [hval, if_neg hs]
    exact ⟨_, rfl, _, hget2, rfl, rfl⟩

/-- Concrete step used to witness C5: name s, run id rw1. -/
def exStepW : StepState Unit :=
  { name := "s", component_type := "Other", run_id := "rw1" }

/-- Concrete registry holding the RUNNING task recorded for exStepW. -/
def exRegW : FlowRegistry Unit :=
  { name := "p", run_id := "r",
    tasks := [{ name := "s", component_type := "Other",
                status := some "RUNNING", run_id := some "rw1" }],
    task_stack := ["s"] }

/-- C5 witness: the hypothesis (the registry holds the task for the step)
discharged on the concrete registry exRegW. -/
theorem nbx_C5_witness :
    (Step.exitScope exStepW (some exRegW) false "t9").2 = false ∧
    ∃ r2, (Step.exitScope exStepW (some exRegW) false "t9").1 = some r2 ∧
      ∃ t2, r2.get_task "s" (some "rw1") = some t2 ∧
        t2.status = some "FAILED" ∧ t2.finished_at = some "t9" :=
  nbx_C5_failed_step_finalized exStepW exRegW "t9" rfl

/-- Concrete step state constructed with the sentinel auto. -/
def exStepAuto : StepState Unit :=
  { name := "s", component_type := "auto", run_id := "rid1" }

/-- Concrete empty registry. -/
def exEmptyReg : FlowRegistry Unit := { name := "p", run_id := "r" }

/-- C6 counterexample: construction with the sentinel auto succeeds, but the
task record stored at step entry carries component_type auto literally, which
is not a member of the closed set: the sentinel is not resolved before the
task record is stored. -/
theorem nbx_C6_counterexample :
    Step.init "s" "auto" ([] : List (String × Unit)) "rid1"
      = Except.ok exStepAuto
    ∧ (∃ r2, Step.enterScope exStepAuto (some exEmptyReg) "t0" = some r2
        ∧ r2.tasks.map TaskSpec.component_type = ["auto"])
    ∧ COMPONENT_TYPES.contains "auto" = false := by
  refine ⟨rfl, ⟨_, rfl, rfl⟩, by decide⟩

/-- C6 amended: construction succeeds exactly for the members of the closed
set COMPONENT_TYPES and for the literal sentinel auto, and raises ValueError
for every other string; but auto is stored in the task record as the literal
string auto, not resolved to a member of the closed set. -/
theorem nbx_C6_component_type_validation :
    ∀ (J : Type) (name ct : String) (tags : List (String × J)) (rid : String),
      (COMPONENT_TYPES.contains ct = true ∨ ct = "auto" →
        Step.init name ct tags rid = Except.ok
          { name := name, component_type := ct, tags := tags, run_id := rid })
      ∧ (COMPONENT_TYPES.contains ct = false → ct ≠ "auto" →
        Step.init name ct tags rid
          = Except.error ("ValueError: invalid component_type " ++ ct)) := by
  intro J name ct tags rid
  constructor
  · intro h
    unfold Step.init
    rcases h with h | h
    · rw [if_neg]
      rintro ⟨h1, -⟩
      rw [h] at h1
      cases h1
    · rw [if_neg]
      rintro ⟨-, h2⟩
      exact h2 h
  · intro h1 h2
    unfold Step.init
    rw [if_pos ⟨h1, h2⟩]

/-- C6 amended witness: the positive branch at Transformer and auto, the
negative branch at a string outside the closed set. -/
theorem nbx_C6_witness :
    Step.init "s" "Transformer" ([] : List (String × Unit)) "rid2"
      = Except.ok { name := "s", component_type := "Transformer",
                    tags := [], run_id := "rid2" }
    ∧ Step.init "s" "auto" ([] : List (String × Unit)) "rid3"
      = Except.ok { name := "s", component_type := "auto",
                    tags := [], run_id := "rid3" }
    ∧ Step.init "s" "Bogus" ([] : List (String × Unit)) "rid4"
      = Except.error ("ValueError: invalid component_type " ++ "Bogus") :=
  ⟨(nbx_C6_component_type_validation Unit "s" "Transformer" [] "rid2").1
      (Or.inl (by decide)),
   (nbx_C6_component_type_validation Unit "s" "auto" [] "rid3").1 (Or.inr rfl),
   (nbx_C6_component_type_validation Unit "s" "Bogus" [] "rid4").2
      (by decide) (by decide)⟩

/-- The flow-level context of the Flow class (step.py lines 38-46): name,
run id, the auto_export flag and the optional explicit export path. -/
structure FlowCtx where
  name : String
  run_id : String
  auto_export : Bool := true
  export_path : Option String := none
deriving Repr, DecidableEq

/-- Flow.__enter__ (step.py lines 53-63): install the registry as the ambient
flow, stamp started_at with the clock value, and register the
_export_on_exit atexit hook exactly when auto_export is set and the hook is
not yet registered; the returned Bool reports that registration.  No file is
written at entry. -/
def Flow.enterScope {J : Type} (fc : FlowCtx) (cleanup_registered : Bool)
    (r : FlowRegistry J) (now : String) : FlowRegistry J × Bool :=
  ({ r with started_at := some now }, fc.auto_export && !cleanup_registered)

/-- Flow.__exit__ (step.py lines 65-86): stamp finished_at, set the terminal
status from whether an exception propagated, restore the prior ambient flow,
and return False so an exception is never suppressed.  The third component
lists the file paths written during __exit__: the source writes none — the
FlowSpec export is not invoked here. -/
def Flow.exitScope {J : Type} (fc : FlowCtx) (r : FlowRegistry J)
    (success : Bool) (now : String) : FlowRegistry J × Bool × List String :=
  ({ r with finished_at := some now,
            status := if success then "SUCCESS" else "FAILED" },
   false, [])

/-- Flow._export_on_exit (step.py lines 88-97), the atexit hook run at
interpreter exit: default the export path to name_flow_runid.json when none
was given, attempt registry.to_json there, and catch any failure with an
error log.  writeOk reports whether the external file write succeeded; the
result carries the updated context, the path written, whether an exception
escaped the hook (never), and whether a failure was logged (exactly on write
failure). -/
def Flow.export_on_exit (fc : FlowCtx) (writeOk : Bool) :
    FlowCtx × String × Bool × Bool :=
  let path := match fc.export_path with
    | some p => p
    | none => fc.name ++ "_flow_" ++ fc.run_id ++ ".json"
  ({ fc with export_path := some path }, path, false, !writeOk)

/-- Concrete auto-export flow context with no explicit path. -/
def exFlowCtx : FlowCtx := { name := "f", run_id := "r1" }

/-- C7 counterexample: exiting a flow scope with auto-export requested and a
user exception in flight performs no file write at all — the FlowSpec
document is not persisted at flow-exit (it is persisted by the atexit hook at
interpreter exit instead). -/
theorem nbx_C7_counterexample :
    exFlowCtx.auto_export = true
    ∧ (Flow.exitScope exFlowCtx exEmptyReg false "t1").2.2 = ([] : List String)
    ∧ (Flow.export_on_exit exFlowCtx true).2.1 = "f_flow_r1.json" := by
  refine ⟨rfl, rfl, rfl⟩

/-- C7 amended: with auto-export requested the export hook is registered at
flow entry (to run at interpreter exit), not invoked during __exit__ (which
writes no file whether or not an exception propagated); when the hook runs it
writes to the explicit export path when one was given and otherwise to
name_flow_runid.json, and a write failure is logged and never re-raised. -/
theorem nbx_C7_export_registered_not_run_at_exit :
    (∀ (J : Type) (fc : FlowCtx) (creg success : Bool) (r : FlowRegistry J)
        (now : String),
      (Flow.exitScope fc r success now).2.2 = ([] : List String)
      ∧ (Flow.enterScope fc creg r now).2 = (fc.auto_export && !creg))
    ∧ (∀ (fc : FlowCtx) (w : Bool),
        (Flow.export_on_exit fc w).2.2.1 = false
        ∧ (Flow.export_on_exit fc w).2.2.2 = !w)
    ∧ (∀ (fc : FlowCtx) (w : Bool), fc.export_path = none →
        (Flow.export_on_exit fc w).2.1
          = fc.name ++ "_flow_" ++ fc.run_id ++ ".json")
    ∧ (∀ (fc : FlowCtx) (w : Bool) (p0 : String), fc.export_path = some p0 →
        (Flow.export_on_exit fc w).2.1 = p0) := by
  refine ⟨fun J fc creg success r now => ⟨rfl, rfl⟩,
          fun fc w => ⟨rfl, rfl⟩, ?_, ?_⟩
  · intro fc w hp
    unfold Flow.export_on_exit
    rw [hp]
  · intro fc w p0 hp
    unfold Flow.export_on_exit
    rw [hp]

/-- C7 amended witness: the path branches instantiated on the concrete
contexts with and without an explicit export path. -/
theorem nbx_C7_witness :
    (Flow.export_on_exit exFlowCtx false).2.1 = "f_flow_r1.json"
    ∧ (Flow.export_on_exit { exFlowCtx with export_path := some "out.json" }
        false).2.1 = "out.json" :=
  ⟨nbx_C7_export_registered_not_run_at_exit.2.2.1 exFlowCtx false rfl,
   nbx_C7_export_registered_not_run_at_exit.2.2.2
     { exFlowCtx with export_path := some "out.json" } false "out.json" rfl⟩

/-- The ambient context-variable state read by the module-level helpers
(step.py lines 24-26): the current flow registry and the current step. -/
structure AmbientState (J : Type) where
  current_flow : Option (FlowRegistry J) := none
  current_step : Option (StepState J) := none
deriving Repr, DecidableEq

/-- The module-level mark_input (step.py lines 342-348): append to the
current step when one is active, otherwise only log a warning and change
nothing. -/
def mark_input {J : Type} (amb : AmbientState J) (ds : DatasetRef J) :
    AmbientState J :=
  match amb.current_step with
  | some s => { amb with current_step := some (s.mark_input ds) }
  | none => amb

/-- The module-level mark_output (step.py lines 350-356): append to the
current step when one is active, otherwise only log a warning and change
nothing. -/
def mark_output {J : Type} (amb : AmbientState J) (ds : DatasetRef J) :
    AmbientState J :=
  match amb.current_step with
  | some s => { amb with current_step := some (s.mark_output ds) }
  | none => amb

/-- C10: calling mark_input or mark_output with no active step returns
normally (totality: no exception is possible) and leaves the whole ambient
program state — current flow, current step, and thereby every registry and
dataset reachable from it — unchanged. -/
theorem nbx_C10_marks_noop_without_step {J : Type} (amb : AmbientState J)
    (ds : DatasetRef J) (h : amb.current_step = none) :
    mark_input amb ds = amb ∧ mark_output amb ds = amb := by
  constructor
  · unfold mark_input
    rw [h]
  · unfold mark_output
    rw [h]

/-- C10 witness: the no-active-step hypothesis discharged on the empty
ambient state. -/
theorem nbx_C10_witness :
    mark_input ({} : AmbientState Unit) { ns := "file", nm := "x" }
      = ({} : AmbientState Unit)
    ∧ mark_output ({} : AmbientState Unit) { ns := "file", nm := "x" }
      = ({} : AmbientState Unit) :=
  nbx_C10_marks_noop_without_step {} { ns := "file", nm := "x" } rfl

end Nbxflow
